import Mathlib

/-!
Verification of the disabled-state propagation algorithm of
`src/components/script/dom/htmlfieldsetelement.rs` (Servo's
`HTMLFieldSetElement`).

The document tree is embedded shallowly: an element is a node carrying its
kind, its own `disabled` attribute presence, its two effective state flags
(`disabled_state`, `enabled_state`), an ordered list of children, and an
ordered list of shadow subtrees (subtrees hosted in a shadow root, which a
`ShadowIncluding::No` traversal never enters).  The cascade that
`attribute_mutated` performs on the `disabled` attribute is rendered as a
pure tree transformation: the container updates its own flags, then each
cascade root (every direct child except the first legend child) is rewritten
by either the force-disable pass or the re-derivation pass, exactly as the
two `for field in fields` loops do.
-/

namespace Fieldset

/-- Element kinds relevant to the algorithm: the grouping container
(`HTMLFieldSetElement`), the caption (`HTMLLegendElement`), the four eligible
control kinds matched by the traversal filter (`HTMLButtonElement`,
`HTMLInputElement`, `HTMLSelectElement`, `HTMLTextAreaElement`), and
everything else. -/
inductive Kind where
  | fieldset
  | legend
  | button
  | input
  | select
  | textarea
  | other
deriving DecidableEq, Repr

/-- The per-element data the algorithm reads and writes: the element's kind,
whether its own `disabled` attribute is present, and the two effective state
flags (`IN_DISABLED_STATE` / `IN_ENABLED_STATE`). -/
structure ElemData where
  kind : Kind
  disabledAttr : Bool
  disabledState : Bool
  enabledState : Bool
deriving DecidableEq, Repr

/-- A document subtree: element data, ordered light-tree children, and the
forest of shadow subtrees hosted below this element.  A
`ShadowIncluding::No` traversal descends into `children` only. -/
inductive Elem where
  | node (data : ElemData) (children : List Elem) (shadow : List Elem)
deriving Repr

def dataOf : Elem → ElemData
  | .node d _ _ => d

def childrenOf : Elem → List Elem
  | .node _ cs _ => cs

def shadowOf : Elem → List Elem
  | .node _ _ sh => sh

/-- The type filter of the cascade (lines 139-153 of the source): keep a
visited node exactly when it is a button, input, select or textarea
element. -/
def eligibleKind : Kind → Bool
  | .button => true
  | .input => true
  | .select => true
  | .textarea => true
  | _ => false

/-- The check performed by the children filter (line 129 of the source):
`node.is::<HTMLLegendElement>()`. -/
def isLegendElem (t : Elem) : Bool := (dataOf t).kind == Kind.legend

/-- The mutation record delivered to `attribute_mutated`:
`AttributeMutation::Set(Option<&AttrValue>)` or `AttributeMutation::Removed`.
Attribute values are rendered as strings. -/
inductive AttributeMutation where
  | set (oldValue : Option String)
  | removed

/-- The write performed on each field in the `disabled_state == true` branch
(lines 158-159 of the source): `set_disabled_state(true);
set_enabled_state(false)`. -/
def forceDisable (d : ElemData) : ElemData :=
  { d with disabledState := true, enabledState := false }

/-- The container's own state update (lines 123-124 of the source):
`el.set_disabled_state(disabled_state); el.set_enabled_state(!disabled_state)`. -/
def setContainerState (target : Bool) (d : ElemData) : ElemData :=
  { d with disabledState := target, enabledState := !target }

/-- Modelled from the spec: `Element::check_disabled_attribute` lives in
element.rs, outside the sources given here.  Per the spec's external
interface, it determines whether the element's own disabling attribute is
present and sets `disabled_state` / `enabled_state` accordingly. -/
def checkDisabledAttribute (d : ElemData) : ElemData :=
  if d.disabledAttr then { d with disabledState := true, enabledState := false }
  else { d with disabledState := false, enabledState := true }

/-- Modelled from the spec:
`Element::check_ancestors_disabled_state_for_form_control` lives in
element.rs, outside the sources given here.  Per the spec's external
interface, it walks the ancestor grouping containers and forces the disabled
state when some such ancestor is currently disabled; it never clears state.
The flag `anc` abstracts the walk: it is true exactly when a
still-disabled grouping-container ancestor exists. -/
def checkAncestorsDisabled (anc : Bool) (d : ElemData) : ElemData :=
  if anc then { d with disabledState := true, enabledState := false } else d

/-- The re-derivation applied to each field in the `disabled_state == false`
branch (lines 164-165 of the source): first the own-attribute check, then
the ancestor-chain check. -/
def deriveState (anc : Bool) (d : ElemData) : ElemData :=
  checkAncestorsDisabled anc (checkDisabledAttribute d)

/-- Propagation of the ancestor-disabled flag one level down: a child of an
element with data `d` has a still-disabled grouping-container ancestor iff
the element already had one, or the element itself is a grouping container
whose `disabled_state` is set. -/
def childFlag (anc : Bool) (d : ElemData) : Bool :=
  anc || (d.kind == Kind.fieldset && d.disabledState)

mutual
/-- Modelled from the spec: `Node::traverse_preorder(ShadowIncluding::No)`
lives in node.rs, outside the sources given here.  Per the spec's external
interface it is the root-inclusive pre-order sequence of the subtree; with
`ShadowIncluding::No` it descends into light-tree children only, never into
shadow subtrees. -/
def traversePreorder : Elem → List Elem
  | .node d cs sh => .node d cs sh :: traverseList cs
def traverseList : List Elem → List Elem
  | [] => []
  | t :: ts => traversePreorder t ++ traverseList ts
end

/-- The stateful children filter (lines 125-135 of the source): scanning in
order with a `found_legend` flag, the first legend child is dropped and
every other child is kept. -/
def filterLegend : Bool → List Elem → List Elem
  | _, [] => []
  | true, t :: ts => t :: filterLegend true ts
  | false, t :: ts =>
      if isLegendElem t then filterLegend true ts
      else t :: filterLegend false ts

/-- The `flat_map` of lines 136-154 of the source, applied to an explicit
list of cascade roots: concatenate, per root, the eligible elements of its
pre-order traversal. -/
def collectFields : List Elem → List Elem
  | [] => []
  | c :: cs =>
      (traversePreorder c).filter (fun t => eligibleKind (dataOf t).kind) ++
        collectFields cs

/-- The `fields` iterator of the source, as a list: eligible elements of the
pre-order traversals of the legend-filtered children. -/
def fieldsOf (cs : List Elem) : List Elem :=
  collectFields (filterLegend false cs)

mutual
/-- The `disabled_state == true` loop (lines 155-160 of the source) as a
tree transformation: every eligible element of the subtree (the root
included) is force-disabled; all other element data, and every shadow
subtree, is untouched. -/
def disableTree : Elem → Elem
  | .node d cs sh =>
      .node (if eligibleKind d.kind then forceDisable d else d)
        (disableList cs) sh
def disableList : List Elem → List Elem
  | [] => []
  | t :: ts => disableTree t :: disableList ts
end

mutual
/-- The `disabled_state == false` loop (lines 161-167 of the source) as a
tree transformation: every eligible element of the subtree is re-derived
from its own attribute and its ancestor-chain flag; the flag is threaded
down through `childFlag` (grouping containers themselves are never fields,
so their `disabled_state` read by the walk is their pre-loop value). -/
def enableTree (anc : Bool) : Elem → Elem
  | .node d cs sh =>
      .node (if eligibleKind d.kind then deriveState anc d else d)
        (enableList (childFlag anc d) cs) sh
def enableList (anc : Bool) : List Elem → List Elem
  | [] => []
  | t :: ts => enableTree anc t :: enableList anc ts
end

/-- Application of a per-root transformation through the legend-skipping
children filter: the first legend child is kept verbatim (its subtree is
exempt), every other child is rewritten by `f`. -/
def mapCascadeRoots (f : Elem → Elem) : Bool → List Elem → List Elem
  | _, [] => []
  | true, t :: ts => f t :: mapCascadeRoots f true ts
  | false, t :: ts =>
      if isLegendElem t then t :: mapCascadeRoots f true ts
      else f t :: mapCascadeRoots f false ts

/-- The cascade triggered for the `disabled` attribute (lines 121-167 of the
source): set the container's own flags, then run the matching loop over the
cascade roots.  In the enable branch the ancestor flag seen by the children
starts from the container's just-updated state, since the container write
happens before the loop. -/
def cascade (target : Bool) : Elem → Elem
  | .node d cs sh =>
      let d1 := setContainerState target d
      if target then .node d1 (mapCascadeRoots disableTree false cs) sh
      else .node d1 (mapCascadeRoots (enableTree (childFlag false d1)) false cs) sh

/-- The observer dispatch of `attribute_mutated` (lines 109-174 of the
source), as a transformation of the container subtree: for the `disabled`
attribute, `Set(None)` runs the disable cascade, `Set(Some(_))` returns with
no state change, `Removed` runs the enable cascade; the `form` branch
delegates to the form-ownership resolver and every other attribute does
nothing — neither touches any `disabled` / `enabled` flag. -/
def attribute_mutated (attrName : String) (m : AttributeMutation) (t : Elem) : Elem :=
  if attrName = "disabled" then
    match m with
    | .set none => cascade true t
    | .set (some _) => t
    | .removed => cascade false t
  else t

/-- Observable calls made by one `attribute_mutated` invocation, for the
ordering contract: the superclass hook, a cascade run, or the delegation to
the form-ownership resolver. -/
inductive Event where
  | superHook
  | cascadeRun (disabled : Bool)
  | formResolver
deriving DecidableEq, Repr

/-- The calls this core makes after the superclass hook, per attribute and
mutation kind (the `match` of lines 111-173 of the source). -/
def dispatchEvents (attrName : String) (m : AttributeMutation) : List Event :=
  if attrName = "disabled" then
    match m with
    | .set none => [Event.cascadeRun true]
    | .set (some _) => []
    | .removed => [Event.cascadeRun false]
  else if attrName = "form" then [Event.formResolver]
  else []

/-- The call trace of `attribute_mutated` (lines 109-174 of the source): the
superclass hook first (line 110), unconditionally, then the dispatch. -/
def attributeMutatedEvents (attrName : String) (m : AttributeMutation) : List Event :=
  Event.superHook :: dispatchEvents attrName m

/-- The element-state flags relevant at construction, a fragment of the
`ElementState` bitflags. -/
structure ElementState where
  inEnabledState : Bool
  inDisabledState : Bool
deriving DecidableEq, Repr

/-- The bitflag constant `ElementState::IN_ENABLED_STATE` passed by
`new_inherited`: only the enabled flag is set. -/
def inEnabledStateFlags : ElementState :=
  { inEnabledState := true, inDisabledState := false }

/-- The fields of `HTMLFieldSetElement` the constructor initialises: the
inherited element state and the form owner. -/
structure HTMLFieldSetElement where
  elementState : ElementState
  formOwner : Option Nat
deriving DecidableEq, Repr

/-- The constructor `HTMLFieldSetElement::new_inherited` (lines 32-46 of the
source): the inherited element is created with `IN_ENABLED_STATE` and the
form owner with `Default::default()`, i.e. no form owner. -/
def new_inherited : HTMLFieldSetElement :=
  { elementState := inEnabledStateFlags, formOwner := none }

/-- Modelled from the spec: `HTMLElement::is_listed_element` lives in
htmlelement.rs, outside the sources given here.  The spec's glossary defines
the listed/eligible controls as the four control kinds (button-like,
text-input, selection, multiline-text). -/
def is_listed_element (d : ElemData) : Bool := eligibleKind d.kind

/-- Modelled from the spec: the `HTMLCollection` produced by
`HTMLCollection::create(window, root, filter)` in `Elements` (lines 66-78 of
the source) enumerates the descendants of the root, in tree order, that
satisfy the filter; the root itself is excluded and no further structural
exemption is applied — the `ElementsFilter` of the source checks
`is_listed_element` only. -/
def elementsCollection : Elem → List ElemData
  | .node _ cs _ => ((traverseList cs).map dataOf).filter is_listed_element

/-- The element data of the cascade's eligible set: the fields selected from
the container's children by the legend-skipping filter and the four-kind
type filter. -/
def eligibleSet : Elem → List ElemData
  | .node _ cs _ => (fieldsOf cs).map dataOf

mutual
/-- Checker used to state node-wise properties of a transformed subtree:
`p` holds of the data of every element visited by the shadow-excluding
pre-order traversal. -/
def allVisited (p : ElemData → Bool) : Elem → Bool
  | .node d cs _ => p d && allVisitedList p cs
def allVisitedList (p : ElemData → Bool) : List Elem → Bool
  | [] => true
  | t :: ts => allVisited p t && allVisitedList p ts
end

mutual
/-- Checker for the enable branch: given the ancestor-disabled flag at the
root, every eligible element's flags equal the re-derived value (own
attribute, then ancestor chain), with the flag threaded through
`childFlag`. -/
def derivedOK : Bool → Elem → Bool
  | anc, .node d cs _ =>
      (!eligibleKind d.kind ||
        (d.disabledState == (d.disabledAttr || anc) &&
          d.enabledState == !(d.disabledAttr || anc))) &&
      derivedOKList (childFlag anc d) cs
def derivedOKList : Bool → List Elem → Bool
  | _, [] => true
  | anc, t :: ts => derivedOK anc t && derivedOKList anc ts
end

/-- The per-node update of the disable loop, as a function on data. -/
def updDisable (d : ElemData) : ElemData :=
  if eligibleKind d.kind then forceDisable d else d

/-- The per-node update of the enable loop, as a function on a node's data
paired with its ancestor-disabled flag. -/
def updDerive (p : Bool × ElemData) : ElemData :=
  if eligibleKind p.2.kind then deriveState p.1 p.2 else p.2

mutual
/-- Pre-order traversal annotated with each visited element's
ancestor-disabled flag, starting from the flag `anc` at the root. -/
def annPreorder (anc : Bool) : Elem → List (Bool × ElemData)
  | .node d cs _ => (anc, d) :: annPreorderList (childFlag anc d) cs
def annPreorderList (anc : Bool) : List Elem → List (Bool × ElemData)
  | [] => []
  | t :: ts => annPreorder anc t ++ annPreorderList anc ts
end

mutual
/-- Simultaneous induction over subtrees and forests, packaged for reuse. -/
theorem elem_rec_pair (P : Elem → Prop) (Q : List Elem → Prop)
    (h1 : ∀ d cs sh, Q cs → Q sh → P (.node d cs sh))
    (h2 : Q [])
    (h3 : ∀ t ts, P t → Q ts → Q (t :: ts)) : ∀ t, P t
  | .node d cs sh =>
      h1 d cs sh (list_rec_pair P Q h1 h2 h3 cs) (list_rec_pair P Q h1 h2 h3 sh)
theorem list_rec_pair (P : Elem → Prop) (Q : List Elem → Prop)
    (h1 : ∀ d cs sh, Q cs → Q sh → P (.node d cs sh))
    (h2 : Q [])
    (h3 : ∀ t ts, P t → Q ts → Q (t :: ts)) : ∀ ts, Q ts
  | [] => h2
  | t :: ts =>
      h3 t ts (elem_rec_pair P Q h1 h2 h3 t) (list_rec_pair P Q h1 h2 h3 ts)
end

theorem filterLegend_found (cs : List Elem) : filterLegend true cs = cs := by
  induction cs with
  | nil => rfl
  | cons t ts ih => simp [filterLegend, ih]

theorem mapCascadeRoots_found (f : Elem → Elem) (cs : List Elem) :
    mapCascadeRoots f true cs = cs.map f := by
  induction cs with
  | nil => rfl
  | cons t ts ih => simp [mapCascadeRoots, ih]

theorem filterLegend_no_legend (cs : List Elem)
    (h : ∀ y ∈ cs, isLegendElem y = false) : filterLegend false cs = cs := by
  induction cs with
  | nil => rfl
  | cons t ts ih =>
      have ht : isLegendElem t = false := h t (by simp)
      have hts : ∀ y ∈ ts, isLegendElem y = false := fun y hy => h y (by simp [hy])
      simp [filterLegend, ht, ih hts]

theorem mapCascadeRoots_no_legend (f : Elem → Elem) (cs : List Elem)
    (h : ∀ y ∈ cs, isLegendElem y = false) :
    mapCascadeRoots f false cs = cs.map f := by
  induction cs with
  | nil => rfl
  | cons t ts ih =>
      have ht : isLegendElem t = false := h t (by simp)
      have hts : ∀ y ∈ ts, isLegendElem y = false := fun y hy => h y (by simp [hy])
      simp [mapCascadeRoots, ht, ih hts]

theorem filterLegend_split (pre : List Elem) (x : Elem) (post : List Elem)
    (hpre : ∀ y ∈ pre, isLegendElem y = false) (hx : isLegendElem x = true) :
    filterLegend false (pre ++ x :: post) = pre ++ post := by
  induction pre with
  | nil => simp [filterLegend, hx, filterLegend_found]
  | cons t ts ih =>
      have ht : isLegendElem t = false := hpre t (by simp)
      have hts : ∀ y ∈ ts, isLegendElem y = false := fun y hy => hpre y (by simp [hy])
      simp [filterLegend, ht, ih hts]

theorem mapCascadeRoots_split (f : Elem → Elem) (pre : List Elem) (x : Elem)
    (post : List Elem)
    (hpre : ∀ y ∈ pre, isLegendElem y = false) (hx : isLegendElem x = true) :
    mapCascadeRoots f false (pre ++ x :: post) = pre.map f ++ x :: post.map f := by
  induction pre with
  | nil => simp [mapCascadeRoots, hx, mapCascadeRoots_found]
  | cons t ts ih =>
      have ht : isLegendElem t = false := hpre t (by simp)
      have hts : ∀ y ∈ ts, isLegendElem y = false := fun y hy => hpre y (by simp [hy])
      simp [mapCascadeRoots, ht, ih hts]

theorem deriveState_eq (anc : Bool) (d : ElemData) :
    deriveState anc d =
      { d with disabledState := d.disabledAttr || anc,
               enabledState := !(d.disabledAttr || anc) } := by
  cases hd : d.disabledAttr <;> cases anc <;>
    simp [deriveState, checkDisabledAttribute, checkAncestorsDisabled, hd]

theorem eligible_ne_fieldset (k : Kind) :
    eligibleKind k = true → (k == Kind.fieldset) = false := by
  cases k <;> decide

theorem filter_map_dataOf (l : List Elem) :
    (l.filter (fun t => eligibleKind (dataOf t).kind)).map dataOf =
      (l.map dataOf).filter (fun d => eligibleKind d.kind) := by
  induction l with
  | nil => rfl
  | cons a l ih =>
      cases hq : eligibleKind (dataOf a).kind <;> simp [List.filter, hq, ih]

theorem collectFields_map (cs : List Elem) :
    (collectFields cs).map dataOf =
      ((traverseList cs).map dataOf).filter (fun d => eligibleKind d.kind) := by
  induction cs with
  | nil => rfl
  | cons c cs ih =>
      simp only [collectFields, traverseList, List.map_append, List.filter_append, ih]
      rw [filter_map_dataOf]

/-- Sample data: a button with no own disabled attribute, currently enabled. -/
def buttonD : ElemData := ⟨Kind.button, false, false, true⟩

/-- Sample data: an input with no own disabled attribute, currently enabled. -/
def inputD : ElemData := ⟨Kind.input, false, false, true⟩

/-- Sample data: a legend element. -/
def legendD : ElemData := ⟨Kind.legend, false, false, true⟩

/-- Sample data: a fieldset container, currently enabled. -/
def fieldsetD : ElemData := ⟨Kind.fieldset, false, false, true⟩

def buttonN : Elem := .node buttonD [] []

def inputN : Elem := .node inputD [] []

def legendN : Elem := .node legendD [] []

/-- A legend child with an input control nested inside it. -/
def legendWithInputN : Elem := .node legendD [.node inputD [] []] []

/-- A fieldset whose only child is a legend containing an input. -/
def exContainer : Elem := .node fieldsetD [legendWithInputN] []

/-- A fieldset with a single input child and no legend child. -/
def exContainerNoLegend : Elem := .node fieldsetD [.node inputD [] []] []

/-- C1: when the cascade runs, exactly one direct child of the container is
exempted — the first child (in document order) whose kind is legend is
skipped together with its entire subtree (it is not a cascade root and the
cascade keeps it verbatim); every other direct child, whether before or
after that first legend and including later legend-kind children, is a
cascade root and is rewritten by the per-root pass; when no legend child
exists, every direct child is a cascade root. -/
theorem cascade_exempts_exactly_first_legend :
    (∀ pre x post, (∀ y ∈ pre, isLegendElem y = false) → isLegendElem x = true →
      filterLegend false (pre ++ x :: post) = pre ++ post ∧
      ∀ f, mapCascadeRoots f false (pre ++ x :: post) = pre.map f ++ x :: post.map f) ∧
    (∀ cs, (∀ y ∈ cs, isLegendElem y = false) →
      filterLegend false cs = cs ∧
      ∀ f, mapCascadeRoots f false cs = cs.map f) := by
  constructor
  · intro pre x post hpre hx
    exact ⟨filterLegend_split pre x post hpre hx,
      fun f => mapCascadeRoots_split f pre x post hpre hx⟩
  · intro cs h
    exact ⟨filterLegend_no_legend cs h, fun f => mapCascadeRoots_no_legend f cs h⟩

/-- Witness for C1 at a concrete child list: of the children
button, legend, legend-with-input, input, only the first legend is dropped
from the cascade roots, and the disable pass keeps exactly that child
verbatim while rewriting the others — the second legend included. -/
theorem cascade_exempts_exactly_first_legend_witness :
    filterLegend false [buttonN, legendN, legendWithInputN, inputN] =
      [buttonN, legendWithInputN, inputN] ∧
    mapCascadeRoots disableTree false [buttonN, legendN, legendWithInputN, inputN] =
      [disableTree buttonN, legendN, disableTree legendWithInputN, disableTree inputN] := by
  have h := cascade_exempts_exactly_first_legend.1 [buttonN] legendN
    [legendWithInputN, inputN] (by decide) (by decide)
  exact ⟨h.1, h.2 disableTree⟩

/-- C3: the observer dispatch for the disabled attribute — Set with no old
value runs the disable cascade, Removed runs the enable cascade, Set with an
old value triggers nothing; before the descendant loop the container's own
flags are set unconditionally to the target and its negation. -/
theorem observer_disabled_dispatch :
    (∀ t : Elem,
      attribute_mutated "disabled" (AttributeMutation.set none) t = cascade true t) ∧
    (∀ (v : String) (t : Elem),
      attribute_mutated "disabled" (AttributeMutation.set (some v)) t = t) ∧
    (∀ t : Elem,
      attribute_mutated "disabled" AttributeMutation.removed t = cascade false t) ∧
    (∀ (target : Bool) (d : ElemData) (cs sh : List Elem),
      dataOf (cascade target (Elem.node d cs sh)) = setContainerState target d) ∧
    (∀ (target : Bool) (d : ElemData),
      (setContainerState target d).disabledState = target ∧
      (setContainerState target d).enabledState = !target) := by
  refine ⟨fun t => ?_, fun v t => ?_, fun t => ?_, fun target d cs sh => ?_,
    fun target d => ⟨rfl, rfl⟩⟩
  · simp [attribute_mutated]
  · simp [attribute_mutated]
  · simp [attribute_mutated]
  · cases target <;> simp [cascade, dataOf]

/-- C6: idempotence through the observer — after a first disabled mutation
with kind Set(None) has run the disable cascade, a second disabled mutation
with kind Set(Some(_)) leaves the whole subtree unchanged, and its call
trace contains nothing beyond the superclass hook. -/
theorem disabled_cascade_idempotent_observer :
    (∀ (t : Elem) (v : String),
      attribute_mutated "disabled" (AttributeMutation.set (some v))
        (attribute_mutated "disabled" (AttributeMutation.set none) t) =
      attribute_mutated "disabled" (AttributeMutation.set none) t) ∧
    (∀ v : String,
      attributeMutatedEvents "disabled" (AttributeMutation.set (some v)) =
        [Event.superHook]) := by
  constructor
  · intro t v
    simp [attribute_mutated]
  · intro v
    simp [attributeMutatedEvents, dispatchEvents]

/-- C7: every state write the cascade performs — the container write of step
one, the forced-disable write, and the re-derivation write — assigns the two
flags complementary values in the same step. -/
theorem cascade_writes_complementary :
    (∀ (target : Bool) (d : ElemData),
      (setContainerState target d).enabledState =
        !(setContainerState target d).disabledState) ∧
    (∀ d : ElemData,
      (forceDisable d).disabledState = true ∧
      (forceDisable d).enabledState = !(forceDisable d).disabledState) ∧
    (∀ (anc : Bool) (d : ElemData),
      (deriveState anc d).enabledState = !(deriveState anc d).disabledState) ∧
    (∀ (target : Bool) (d : ElemData) (cs sh : List Elem),
      (dataOf (cascade target (Elem.node d cs sh))).enabledState =
        !(dataOf (cascade target (Elem.node d cs sh))).disabledState) := by
  refine ⟨fun target d => rfl, fun d => ⟨rfl, rfl⟩, fun anc d => ?_,
    fun target d cs sh => ?_⟩
  · simp [deriveState_eq]
  · cases target <;> simp [cascade, dataOf, setContainerState]

/-- C8: for every attribute mutation delivered to the observer — any
attribute, any mutation kind, the no-op short-circuit included — the call
trace begins with the superclass hook and the hook occurs nowhere in the
dispatch that follows it. -/
theorem super_hook_invoked_first (attrName : String) (m : AttributeMutation) :
    attributeMutatedEvents attrName m =
      Event.superHook :: dispatchEvents attrName m ∧
    Event.superHook ∉ dispatchEvents attrName m := by
  refine ⟨rfl, ?_⟩
  by_cases h : attrName = "disabled"
  · subst h
    cases m with
    | set o => cases o <;> simp [dispatchEvents]
    | removed => simp [dispatchEvents]
  · by_cases h2 : attrName = "form" <;> simp [dispatchEvents, h, h2]

/-- C9: a freshly constructed fieldset is in the enabled state — its element
state is exactly the IN_ENABLED_STATE flag set (enabled true, disabled
false) and its form owner is absent. -/
theorem new_inherited_enabled_no_form :
    new_inherited.elementState = inEnabledStateFlags ∧
    new_inherited.elementState.inEnabledState = true ∧
    new_inherited.elementState.inDisabledState = false ∧
    new_inherited.formOwner = none :=
  ⟨rfl, rfl, rfl, rfl⟩

/-- C2: the apply step is asymmetric.  The disable branch forces every
eligible element to disabled regardless of its own attribute (the write even
leaves the attribute untouched); the enable branch re-derives every eligible
element's state as: disabled iff its own attribute is present or a
still-disabled grouping-container ancestor exists, checking the attribute
first and the ancestor chain second. -/
theorem apply_step_asymmetry :
    (∀ d : ElemData,
      forceDisable d = { d with disabledState := true, enabledState := false }) ∧
    (∀ (anc : Bool) (d : ElemData),
      deriveState anc d =
        { d with disabledState := d.disabledAttr || anc,
                 enabledState := !(d.disabledAttr || anc) }) ∧
    (∀ t : Elem,
      allVisited (fun d => !eligibleKind d.kind || (d.disabledState && !d.enabledState))
        (disableTree t) = true) ∧
    (∀ (anc : Bool) (t : Elem), derivedOK anc (enableTree anc t) = true) := by
  have hdis : ∀ t : Elem,
      allVisited (fun d => !eligibleKind d.kind || (d.disabledState && !d.enabledState))
        (disableTree t) = true :=
    elem_rec_pair
      (fun t => allVisited
        (fun d => !eligibleKind d.kind || (d.disabledState && !d.enabledState))
        (disableTree t) = true)
      (fun ts => allVisitedList
        (fun d => !eligibleKind d.kind || (d.disabledState && !d.enabledState))
        (disableList ts) = true)
      (by
        intro d cs sh hcs _
        cases he : eligibleKind d.kind <;>
          simp [disableTree, allVisited, forceDisable, he, hcs])
      (by simp [disableList, allVisitedList])
      (by
        intro t ts ht hts
        simp [disableList, allVisitedList, ht, hts])
  have hen : ∀ t : Elem, ∀ anc : Bool, derivedOK anc (enableTree anc t) = true :=
    elem_rec_pair
      (fun t => ∀ anc, derivedOK anc (enableTree anc t) = true)
      (fun ts => ∀ anc, derivedOKList anc (enableList anc ts) = true)
      (by
        intro d cs sh hcs _ anc
        have hcf : childFlag anc (if eligibleKind d.kind then deriveState anc d else d) =
            childFlag anc d := by
          cases he : eligibleKind d.kind
          · simp [he]
          · simp [he, childFlag, deriveState_eq, eligible_ne_fieldset d.kind he]
        simp only [enableTree, derivedOK, hcf, hcs (childFlag anc d), Bool.and_true]
        cases he : eligibleKind d.kind <;> simp [he, deriveState_eq])
      (by
        intro anc
        simp [enableList, derivedOKList])
      (by
        intro t ts ht hts anc
        simp [enableList, derivedOKList, ht anc, hts anc])
  exact ⟨fun d => rfl, fun anc d => deriveState_eq anc d, hdis, fun anc t => hen t anc⟩

/-- C4: along each cascade pass, the pre-order sequence of the rewritten
subtree is exactly the pre-order sequence of the original subtree with the
per-node update applied at eligible kinds and the identity everywhere else:
every visited element of another kind (nested containers included) is left
unmodified while traversal continues into it, so controls below nested
containers are still acted upon. -/
theorem cascade_acts_on_eligible_visited :
    (∀ t : Elem, (traversePreorder (disableTree t)).map dataOf =
      ((traversePreorder t).map dataOf).map updDisable) ∧
    (∀ (anc : Bool) (t : Elem), (traversePreorder (enableTree anc t)).map dataOf =
      (annPreorder anc t).map updDerive) ∧
    (∀ (anc : Bool) (t : Elem),
      (annPreorder anc t).map Prod.snd = (traversePreorder t).map dataOf) := by
  have h1 : ∀ t : Elem, (traversePreorder (disableTree t)).map dataOf =
      ((traversePreorder t).map dataOf).map updDisable :=
    elem_rec_pair
      (fun t => (traversePreorder (disableTree t)).map dataOf =
        ((traversePreorder t).map dataOf).map updDisable)
      (fun ts => (traverseList (disableList ts)).map dataOf =
        ((traverseList ts).map dataOf).map updDisable)
      (by
        intro d cs sh hcs _
        simp [disableTree, traversePreorder, dataOf, updDisable, hcs])
      (by simp [disableList, traverseList])
      (by
        intro t ts ht hts
        simp [disableList, traverseList, ht, hts])
  have h2 : ∀ t : Elem, ∀ anc : Bool,
      (traversePreorder (enableTree anc t)).map dataOf =
        (annPreorder anc t).map updDerive :=
    elem_rec_pair
      (fun t => ∀ anc, (traversePreorder (enableTree anc t)).map dataOf =
        (annPreorder anc t).map updDerive)
      (fun ts => ∀ anc, (traverseList (enableList anc ts)).map dataOf =
        (annPreorderList anc ts).map updDerive)
      (by
        intro d cs sh hcs _ anc
        simp [enableTree, traversePreorder, annPreorder, dataOf, updDerive,
          hcs (childFlag anc d)])
      (by
        intro anc
        simp [enableList, traverseList, annPreorderList])
      (by
        intro t ts ht hts anc
        simp [enableList, traverseList, annPreorderList, ht anc, hts anc])
  have h3 : ∀ t : Elem, ∀ anc : Bool,
      (annPreorder anc t).map Prod.snd = (traversePreorder t).map dataOf :=
    elem_rec_pair
      (fun t => ∀ anc, (annPreorder anc t).map Prod.snd =
        (traversePreorder t).map dataOf)
      (fun ts => ∀ anc, (annPreorderList anc ts).map Prod.snd =
        (traverseList ts).map dataOf)
      (by
        intro d cs sh hcs _ anc
        simp [annPreorder, traversePreorder, dataOf, hcs (childFlag anc d)])
      (by
        intro anc
        simp [annPreorderList, traverseList])
      (by
        intro t ts ht hts anc
        simp [annPreorderList, traverseList, ht anc, hts anc])
  exact ⟨h1, fun anc t => h2 t anc, fun anc t => h3 t anc⟩

/-- Counterexample for C5: on a fieldset whose only child is a legend
containing an input, the exposed Elements collection holds that input while
the cascade's eligible set is empty — the collection does not apply the
caption-exemption rule. -/
theorem elements_vs_eligible_counterexample :
    ¬(elementsCollection exContainer = eligibleSet exContainer) := by decide

/-- C5 as amended: the exposed Elements collection enumerates every
descendant of listed kind with no caption exemption; it computes the same
set as the cascade's eligible-set computation for containers that have no
legend-kind direct child, but on a container with a legend child the listed
descendants inside the first legend are enumerated even though the cascade
exempts them. -/
theorem elements_matches_eligible_without_legend (t : Elem)
    (h : ∀ c ∈ childrenOf t, isLegendElem c = false) :
    elementsCollection t = eligibleSet t := by
  obtain ⟨d, cs, sh⟩ := t
  simp only [childrenOf] at h
  have hl : is_listed_element = fun d : ElemData => eligibleKind d.kind := rfl
  simp only [elementsCollection, eligibleSet, fieldsOf, filterLegend_no_legend cs h,
    collectFields_map, hl]

/-- Witness for the amended C5 at a concrete container: a fieldset with a
single input child and no legend child, where the collection and the
cascade's eligible set agree. -/
theorem elements_matches_eligible_witness :
    (∀ c ∈ childrenOf exContainerNoLegend, isLegendElem c = false) ∧
    elementsCollection exContainerNoLegend = eligibleSet exContainerNoLegend :=
  ⟨by decide, elements_matches_eligible_without_legend exContainerNoLegend (by decide)⟩

theorem traverseList_shadow_mapRoots (f : Elem → Elem)
    (hf : ∀ t, (traversePreorder (f t)).map shadowOf =
      (traversePreorder t).map shadowOf) :
    ∀ (b : Bool) (cs : List Elem),
      (traverseList (mapCascadeRoots f b cs)).map shadowOf =
        (traverseList cs).map shadowOf := by
  intro b cs
  induction cs generalizing b with
  | nil => cases b <;> rfl
  | cons t ts ih =>
      cases b
      · cases hl : isLegendElem t <;>
          simp [mapCascadeRoots, hl, traverseList, hf, ih]
      · simp [mapCascadeRoots, traverseList, hf, ih]

/-- C10: the cascade never reaches into shadow trees — for either target
state, every element visited by the (shadow-excluding) traversal carries its
shadow forest over verbatim, so every element located inside a shadow root
of the container or of any descendant keeps its state unchanged. -/
theorem cascade_never_enters_shadow :
    (∀ t : Elem, (traversePreorder (disableTree t)).map shadowOf =
      (traversePreorder t).map shadowOf) ∧
    (∀ (anc : Bool) (t : Elem), (traversePreorder (enableTree anc t)).map shadowOf =
      (traversePreorder t).map shadowOf) ∧
    (∀ (target : Bool) (t : Elem), (traversePreorder (cascade target t)).map shadowOf =
      (traversePreorder t).map shadowOf) := by
  have h1 : ∀ t : Elem, (traversePreorder (disableTree t)).map shadowOf =
      (traversePreorder t).map shadowOf :=
    elem_rec_pair
      (fun t => (traversePreorder (disableTree t)).map shadowOf =
        (traversePreorder t).map shadowOf)
      (fun ts => (traverseList (disableList ts)).map shadowOf =
        (traverseList ts).map shadowOf)
      (by
        intro d cs sh hcs _
        simp [disableTree, traversePreorder, shadowOf, hcs])
      (by simp [disableList, traverseList])
      (by
        intro t ts ht hts
        simp [disableList, traverseList, ht, hts])
  have h2 : ∀ t : Elem, ∀ anc : Bool,
      (traversePreorder (enableTree anc t)).map shadowOf =
        (traversePreorder t).map shadowOf :=
    elem_rec_pair
      (fun t => ∀ anc, (traversePreorder (enableTree anc t)).map shadowOf =
        (traversePreorder t).map shadowOf)
      (fun ts => ∀ anc, (traverseList (enableList anc ts)).map shadowOf =
        (traverseList ts).map shadowOf)
      (by
        intro d cs sh hcs _ anc
        simp [enableTree, traversePreorder, shadowOf, hcs (childFlag anc d)])
      (by
        intro anc
        simp [enableList, traverseList])
      (by
        intro t ts ht hts anc
        simp [enableList, traverseList, ht anc, hts anc])
  refine ⟨h1, fun anc t => h2 t anc, fun target t => ?_⟩
  obtain ⟨d, cs, sh⟩ := t
  cases target
  · have hm := traverseList_shadow_mapRoots
      (enableTree (childFlag false (setContainerState false d)))
      (fun u => h2 u (childFlag false (setContainerState false d))) false cs
    simp [cascade, traversePreorder, shadowOf, hm]
  · have hm := traverseList_shadow_mapRoots disableTree h1 false cs
    simp [cascade, traversePreorder, shadowOf, hm]

end Fieldset
